import Mathlib

/-!
# Verification of the intents.js cross-chain codec and aggregation core

Shallow embedding of the repository's hashing, cross-chain payload codec,
signature-shape detection and signature-aggregation logic, together with
theorems settling the specification's claims about them.

Byte buffers are modelled as `List Nat`, each element intended to be `< 256`;
hypotheses record that bound where a claim quantifies over byte buffers.
Machine words are `Nat` with explicit `% 2 ^ 64` where 64-bit overflow matters.
Fallible code is modelled with `Except String`.
-/

/-! ## Keccak-256 (the hash primitive used by ethers.keccak256) -/

/-- 64-bit left rotation of a word `x < 2^64`. -/
def rotl64 (x n : Nat) : Nat :=
  ((x <<< n) ||| (x >>> (64 - n))) % (2 ^ 64)

/-- Keccak-f[1600] round constants. -/
def keccakRC : List Nat :=
  [0x0000000000000001, 0x0000000000008082, 0x800000000000808a, 0x8000000080008000,
   0x000000000000808b, 0x0000000080000001, 0x8000000080008081, 0x8000000000008009,
   0x000000000000008a, 0x0000000000000088, 0x0000000080008009, 0x000000008000000a,
   0x000000008000808b, 0x800000000000008b, 0x8000000000008089, 0x8000000000008003,
   0x8000000000008002, 0x8000000000000080, 0x000000000000800a, 0x800000008000000a,
   0x8000000080008081, 0x8000000000008080, 0x0000000080000001, 0x8000000080008008]

/-- Combined rho-pi step data: entry `d` is the pair (source lane, rotation)
feeding destination lane `d = x + 5*y`, i.e. the inverse of the pi permutation
`(x, y) ↦ (y, 2x + 3y mod 5)` together with the rho offset of the source. -/
def piRho : List (Nat × Nat) :=
  [(0, 0), (6, 44), (12, 43), (18, 21), (24, 14),
   (3, 28), (9, 20), (10, 3), (16, 45), (22, 61),
   (1, 1), (7, 6), (13, 25), (19, 8), (20, 18),
   (4, 27), (5, 36), (11, 10), (17, 15), (23, 56),
   (2, 62), (8, 55), (14, 39), (15, 41), (21, 2)]

/-- Theta step of Keccak-f on a 25-lane state. -/
def keccakTheta (A : List Nat) : List Nat :=
  let C := (List.range 5).map fun x =>
    A.getD x 0 ^^^ A.getD (x + 5) 0 ^^^ A.getD (x + 10) 0 ^^^
      A.getD (x + 15) 0 ^^^ A.getD (x + 20) 0
  let D := (List.range 5).map fun x =>
    C.getD ((x + 4) % 5) 0 ^^^ rotl64 (C.getD ((x + 1) % 5) 0) 1
  (List.range 25).map fun i => A.getD i 0 ^^^ D.getD (i % 5) 0

/-- Combined rho and pi steps of Keccak-f. -/
def keccakRhoPi (A : List Nat) : List Nat :=
  piRho.map fun sr => rotl64 (A.getD sr.1 0) sr.2

/-- Chi step of Keccak-f. -/
def keccakChi (B : List Nat) : List Nat :=
  (List.range 25).map fun i =>
    let x := i % 5
    let y := i / 5
    B.getD i 0 ^^^
      ((B.getD ((x + 1) % 5 + 5 * y) 0 ^^^ (2 ^ 64 - 1)) &&& B.getD ((x + 2) % 5 + 5 * y) 0)

/-- One round of Keccak-f[1600] with round constant `rc`. -/
def keccakRound (rc : Nat) (A : List Nat) : List Nat :=
  let C := keccakChi (keccakRhoPi (keccakTheta A))
  (C.getD 0 0 ^^^ rc) :: C.drop 1

/-- The full 24-round Keccak-f[1600] permutation. -/
def keccakF (A : List Nat) : List Nat :=
  keccakRC.foldl (fun st rc => keccakRound rc st) A

/-- Interpret (up to) 8 bytes as a little-endian 64-bit lane. -/
def bytesToLane (bs : List Nat) : Nat :=
  bs.foldr (fun b acc => acc * 256 + b) 0

/-- The 8 little-endian bytes of a 64-bit lane. -/
def laneToBytes (w : Nat) : List Nat :=
  (List.range 8).map fun i => (w >>> (8 * i)) % 256

/-- Keccak padding (pad10*1 with the 0x01 domain byte used by Ethereum's
keccak256): extends `msg` to a multiple of the 136-byte rate. -/
def keccakPad (msg : List Nat) : List Nat :=
  let p := 136 - msg.length % 136
  if p = 1 then msg ++ [0x81]
  else msg ++ [0x01] ++ List.replicate (p - 2) 0 ++ [0x80]

/-- Absorb one 136-byte block into the state and permute. -/
def keccakAbsorbBlock (st : List Nat) (block : List Nat) : List Nat :=
  let st' := (List.range 25).map fun i =>
    if i < 17 then st.getD i 0 ^^^ bytesToLane ((block.drop (8 * i)).take 8)
    else st.getD i 0
  keccakF st'

/-- Absorb a padded message, 136 bytes at a time. -/
def keccakAbsorb (st : List Nat) (padded : List Nat) : List Nat :=
  (List.range (padded.length / 136)).foldl
    (fun acc i => keccakAbsorbBlock acc ((padded.drop (136 * i)).take 136)) st

/-- Keccak-256 of a byte string, as its 32-byte digest. -/
def keccak256 (msg : List Nat) : List Nat :=
  let st := keccakAbsorb (List.replicate 25 0) (keccakPad msg)
  ((List.range 4).map fun i => laneToBytes (st.getD i 0)).flatten

/-- Big-endian bytes of `v`, `w` bytes wide (the value modulo `256 ^ w`). -/
def natToBytesBE (w v : Nat) : List Nat :=
  (List.range w).map fun i => (v >>> (8 * (w - 1 - i))) % 256

/-- The unsigned big-endian value of a byte string. -/
def bytesToNatBE (bs : List Nat) : Nat :=
  bs.foldl (fun acc b => acc * 256 + b) 0

/-! ## Operation data model (blndgs-userop builder fields used by this core) -/

/-- The fields of a user operation read or written by the hashing, codec and
aggregation logic. Numeric fields are unsigned integers; byte fields are byte
buffers. -/
structure UserOp where
  sender : Nat
  nonce : Nat
  initCode : List Nat
  callData : List Nat
  callGasLimit : Nat
  verificationGasLimit : Nat
  preVerificationGas : Nat
  maxFeePerGas : Nat
  maxPriorityFeePerGas : Nat
  paymasterAndData : List Nat
  signature : List Nat
  deriving DecidableEq, Repr

/-- Every element of a byte buffer is an actual byte. -/
def Bytes (l : List Nat) : Prop := ∀ b ∈ l, b < 256

instance : DecidablePred Bytes := fun l =>
  inferInstanceAs (Decidable (∀ b ∈ l, b < 256))

/-- Equality of fallible results is decidable whenever both components are. -/
instance {e a : Type} [DecidableEq e] [DecidableEq a] : DecidableEq (Except e a) :=
  fun x y =>
    match x, y with
    | .ok u, .ok v =>
      match decEq u v with
      | isTrue h => isTrue (by rw [h])
      | isFalse h => isFalse (by intro hc; cases hc; exact h rfl)
    | .error u, .error v =>
      match decEq u v with
      | isTrue h => isTrue (by rw [h])
      | isFalse h => isFalse (by intro hc; cases hc; exact h rfl)
    | .ok _, .error _ => isFalse (by intro hc; cases hc)
    | .error _, .ok _ => isFalse (by intro hc; cases hc)

/-- The fixed entry-point contract address (src/constants.ts ENTRY_POINT). -/
def ENTRY_POINT : Nat := 0x5FF137D4b0FDCD49DcA30c7CF57E578a026d2789

/-! ## Operation Hash Engine (src/utils.ts hashUserOp, hashCrossChainUserOp) -/

/-- `hashUserOp` from src/utils.ts: ABI-encodes the ten static fields into ten
32-byte words, hashes that, then ABI-encodes `(hash, ENTRY_POINT, chainId)` and
hashes again. The result is the 32-byte digest (the source returns it as a hex
string). -/
def hashUserOp (chainId : Nat) (op : UserOp) : List Nat :=
  let packedData :=
    natToBytesBE 32 op.sender ++
    natToBytesBE 32 op.nonce ++
    keccak256 op.initCode ++
    keccak256 op.callData ++
    natToBytesBE 32 op.callGasLimit ++
    natToBytesBE 32 op.verificationGasLimit ++
    natToBytesBE 32 op.preVerificationGas ++
    natToBytesBE 32 op.maxFeePerGas ++
    natToBytesBE 32 op.maxPriorityFeePerGas ++
    keccak256 op.paymasterAndData
  let encoded := keccak256 packedData ++ natToBytesBE 32 ENTRY_POINT ++ natToBytesBE 32 chainId
  keccak256 encoded

/-- `Buffer.compare` on byte buffers: unsigned lexicographic byte order, a
strict prefix ordering below the longer buffer. -/
def bufCompare : List Nat → List Nat → Ordering
  | [], [] => .eq
  | [], _ :: _ => .lt
  | _ :: _, [] => .gt
  | a :: as, b :: bs =>
    if a < b then .lt else if b < a then .gt else bufCompare as bs

/-- Strict "less than" under `bufCompare`. -/
def bufLt (a b : List Nat) : Bool := bufCompare a b == .lt

/-- Stable insertion of a buffer into a sorted list of buffers: `x` is placed
before the first strictly greater element, hence after all ties. -/
def insertBuf (x : List Nat) : List (List Nat) → List (List Nat)
  | [] => [x]
  | y :: ys => if bufLt x y then x :: y :: ys else y :: insertBuf x ys

/-- The stable comparator sort that models JavaScript `Array.prototype.sort`
with the `Buffer.compare` comparator. -/
def sortBufs (l : List (List Nat)) : List (List Nat) :=
  l.foldl (fun acc x => insertBuf x acc) []

/-- `hashCrossChainUserOp` from src/utils.ts: per-op hashes, sorted by byte
comparison, concatenated and hashed. Throws on a length mismatch. -/
def hashCrossChainUserOp (chainIDs : List Nat) (ops : List UserOp) :
    Except String (List Nat) :=
  if chainIDs.length ≠ ops.length then
    .error "Number of chainIDs and userOps must match"
  else
    .ok (keccak256 (sortBufs ((chainIDs.zip ops).map fun p => hashUserOp p.1 p.2)).flatten)

/-! ## Cross-Chain Payload Codec (src/crosschain.ts, part_009 lines 862-1205) -/

/-- `readUInt16BE`: big-endian 16-bit read at index `i`. In the source this is
only evaluated after a bounds check, so the default value is never read in any
guarded position. -/
def readUInt16BE (data : List Nat) (i : Nat) : Nat :=
  data.getD i 0 * 256 + data.getD (i + 1) 0

/-- One entry of a parsed cross-chain hash list: a placeholder for the
operation's own hash, or a literal 32-byte operation hash. -/
structure CrossChainHashListEntry where
  isPlaceholder : Bool
  operationHash : List Nat
  deriving DecidableEq, Repr

/-- A decoded cross-chain payload. -/
structure CrossChainData where
  intentJSON : List Nat
  hashList : List CrossChainHashListEntry
  deriving DecidableEq, Repr

/-- `validateOperationHash`: a literal hash must be 32 bytes and not all
zeros. -/
def validateOperationHash (hash : List Nat) : Bool :=
  hash.length == 32 && hash.any (fun b => b ≠ 0)

/-- The entry-reading loop of `parseCrossChainData`: reads `n` entries starting
at `offset`, tracking whether a placeholder has been seen. Returns the entries
and the final placeholder flag. -/
def parseHashListLoop (callData : List Nat) :
    Nat → Nat → Bool → Except String (List CrossChainHashListEntry × Bool)
  | _, 0, found => .ok ([], found)
  | offset, n + 1, found =>
    if offset + 2 > callData.length then .error "Invalid hash list entry"
    else if readUInt16BE callData offset = 0xffff then
      if found then .error "Invalid hash list with multiple placeholders"
      else do
        let (rest, f) ← parseHashListLoop callData (offset + 2) n true
        .ok (⟨true, []⟩ :: rest, f)
    else if offset + 32 > callData.length then .error "Invalid operation hash"
    else if !validateOperationHash ((callData.drop offset).take 32) then
      .error "Invalid hash list hash value"
    else do
      let (rest, f) ← parseHashListLoop callData (offset + 32) n found
      .ok (⟨false, (callData.drop offset).take 32⟩ :: rest, f)

/-- `parseCrossChainData` (part_009 lines 1082-1164): structured decoding of a
cross-chain payload, throwing on any format violation. -/
def parseCrossChainData (callData : List Nat) : Except String CrossChainData :=
  if callData.length < 4 then .error "Missing cross-chain data"
  else if readUInt16BE callData 0 ≠ 0xffff then .error "Not a cross-chain operation"
  else if callData.length < 4 + readUInt16BE callData 2 then
    .error "Intent JSON is incomplete"
  else if callData.length ≤ 4 + readUInt16BE callData 2 then
    .error "Hash list length is missing"
  else if callData.getD (4 + readUInt16BE callData 2) 0 < 2 ∨
      3 < callData.getD (4 + readUInt16BE callData 2) 0 then
    .error "Invalid hash list length"
  else do
    let (hashList, found) ← parseHashListLoop callData (4 + readUInt16BE callData 2 + 1)
      (callData.getD (4 + readUInt16BE callData 2) 0) false
    if !found then .error "Invalid hash list with missing placeholder"
    else .ok ⟨(callData.drop 4).take (readUInt16BE callData 2), hashList⟩

/-- `isCrossChainData` (part_009 lines 1003-1037): the non-throwing structural
probe; checks marker, intent length bound and hash-list count only. -/
def isCrossChainData (data : List Nat) (minHashListLength maxHashListLength : Nat) : Bool :=
  if data.length < 4 then false
  else if readUInt16BE data 0 ≠ 0xffff then false
  else if data.length < 4 + readUInt16BE data 2 + 1 then false
  else
    decide (minHashListLength ≤ data.getD (4 + readUInt16BE data 2) 0 ∧
      data.getD (4 + readUInt16BE data 2) 0 ≤ maxHashListLength)

/-- `serializeHashList`: 1-byte count then the entries, placeholders as the two
bytes 0xFF 0xFF and literal hashes as their 32 bytes. Throws on multiple or
missing placeholders or a wrong hash size. -/
def serializeHashList (hashList : List CrossChainHashListEntry) :
    Except String (List Nat) := do
  let body ← serializeHashListLoop hashList false
  .ok (hashList.length :: body)
where
  serializeHashListLoop :
      List CrossChainHashListEntry → Bool → Except String (List Nat)
    | [], wrotePlaceholder =>
      if wrotePlaceholder then .ok []
      else .error "Invalid hash list with missing placeholder"
    | e :: es, wrotePlaceholder =>
      if e.isPlaceholder then
        if wrotePlaceholder then .error "Invalid hash list with multiple placeholders"
        else do
          let rest ← serializeHashListLoop es true
          .ok (0xff :: 0xff :: rest)
      else if e.operationHash.length ≠ 32 then
        .error "Invalid operation hash length"
      else do
        let rest ← serializeHashListLoop es wrotePlaceholder
        .ok (e.operationHash ++ rest)

/-! ## Signature-shape detection (part_009 lines 1039-1070) -/

/-- The three recognized 4-byte kernel signature type prefixes. -/
def kernelPrefix4 (signature : List Nat) : Bool :=
  signature.take 4 == [0, 0, 0, 0] ||
  signature.take 4 == [0, 0, 0, 1] ||
  signature.take 4 == [0, 0, 0, 2]

/-- `sigHasKernelPrefix` (part_009 lines 1062-1070): at least kernel length and
one of the three recognized 4-byte type prefixes. -/
def sigHasKernelPrefix (signature : List Nat) : Bool :=
  if signature.length < 69 then false
  else kernelPrefix4 signature

/-- `getSignatureEndIdx` (part_009 lines 1039-1060): the end of the base
signature, or 0 when the buffer is textual, too short, or an unrecognized
69-byte shape. -/
def getSignatureEndIdx (signature : List Nat) : Nat :=
  if 2 ≤ signature.length ∧ ¬(signature.getD 0 0 = 0x30 ∧ signature.getD 1 0 = 0x78) then
    if signature.length = 69 then
      if sigHasKernelPrefix signature then 69 else 0
    else if 69 < signature.length ∧ sigHasKernelPrefix signature then 69
    else if 65 ≤ signature.length then 65
    else 0
  else 0

/-! ## Cross-Chain Classifier and Signature Aggregator (part_009 lines 862-1205) -/

/-- `isCrossChainOperation` (part_009 lines 972-986): callData parses as a
cross-chain payload with count in [2,3], or the signature has content past its
detected boundary that probes as cross-chain data with count in [1,3]. -/
def isCrossChainOperation (op : UserOp) : Bool :=
  isCrossChainData op.callData 2 3 ||
    (decide (getSignatureEndIdx op.signature < op.signature.length) &&
      isCrossChainData (op.signature.drop (getSignatureEndIdx op.signature)) 1 3)

/-- `ethers.zeroPadValue (ethers.toBeArray v) w`: the `w` big-endian bytes of
`v`. The source throws when `v` needs more than `w` bytes; theorems about
packing therefore carry `v < 256 ^ w` bounds. -/
def zeroPadValue (w v : Nat) : List Nat := natToBytesBE w v

/-- `getPackedData` (part_009 lines 925-963): the packed block of an embedded
operation — 32-byte nonce, 8-byte callGasLimit, 8-byte preVerificationGas,
8-byte verificationGasLimit, the serialized hash list from the operation's
decoded callData, then the raw initCode when non-empty. -/
def getPackedData (op : UserOp) : Except String (List Nat) := do
  let crossChainData ← parseCrossChainData op.callData
  let hashListBytes ← serializeHashList crossChainData.hashList
  .ok (zeroPadValue 32 op.nonce ++
       zeroPadValue 8 op.callGasLimit ++
       zeroPadValue 8 op.preVerificationGas ++
       zeroPadValue 8 op.verificationGasLimit ++
       hashListBytes ++
       (if 0 < op.initCode.length then op.initCode else []))

/-- `aggregate` (part_009 lines 885-923): validates both operations, finds the
primary's base-signature boundary, packs the embedded operation and either
recognizes an identical existing tail (idempotency) or replaces the signature
with base ++ [0x01] ++ packed block. Returns the updated primary. -/
def aggregate (op embeddedOp : UserOp) : Except String UserOp :=
  if !isCrossChainOperation op then
    .error "Called UserOperationBuilder is not a valid cross-chain userOp"
  else if !isCrossChainOperation embeddedOp then
    .error "UserOperationBuilder to embed is not a valid cross-chain userOp"
  else if getSignatureEndIdx op.signature = 0 then
    .error "Unsigned UserOperationBuilders are not supported"
  else
    match getPackedData embeddedOp with
    | .error e => .error e
    | .ok packedData =>
      if (op.signature.drop (getSignatureEndIdx op.signature)).length = packedData.length + 1 ∧
          (op.signature.drop (getSignatureEndIdx op.signature)).getD 0 0 = 1 ∧
          (op.signature.drop (getSignatureEndIdx op.signature)).drop 1 = packedData then
        .ok op
      else
        .ok { op with
              signature := op.signature.take (getSignatureEndIdx op.signature) ++
                1 :: packedData }

/-- The state-transformer reading of `aggregate` over the mutable pair
`(primary, secondary)`: on any throw the source has not yet called a setter, so
both operations are left unchanged; on success only the primary's signature has
been written and the secondary is untouched. -/
def aggregateRun (op embeddedOp : UserOp) : UserOp × UserOp :=
  match aggregate op embeddedOp with
  | .error _ => (op, embeddedOp)
  | .ok op' => (op', embeddedOp)

/-! ## Cross-chain callData encoding (src/src/IntentBuilder.ts lines 608-686) -/

/-- One entry of the list built by `buildSortedHashList`: the placeholder flag
and the (resolved) hash the entry stands for. -/
structure SortedHashEntry where
  isPlaceholder : Bool
  hash : List Nat
  deriving DecidableEq, Repr

/-- Stable insertion of an entry by the byte order of its resolved hash:
placed before the first strictly greater entry, hence after all ties. -/
def insertHashEntry (x : SortedHashEntry) : List SortedHashEntry → List SortedHashEntry
  | [] => [x]
  | y :: ys => if bufLt x.hash y.hash then x :: y :: ys else y :: insertHashEntry x ys

/-- `buildSortedHashList` (IntentBuilder.ts lines 672-686): a placeholder entry
for `thisHash` followed by literal entries for `otherHashes`, sorted in
ascending byte order of the hash each entry resolves to (JavaScript's sort is
stable, so the placeholder stays ahead of an equal literal hash). -/
def buildSortedHashList (thisHash : List Nat) (otherHashes : List (List Nat)) :
    List SortedHashEntry :=
  (⟨true, thisHash⟩ :: otherHashes.map fun h => ⟨false, h⟩).foldl
    (fun acc x => insertHashEntry x acc) []

/-- The byte serialization of the sorted hash-list entries as emitted by
`encodeCrossChainCallData`: 2 bytes 0xFFFF for the placeholder, 32 raw bytes
for a literal hash. -/
def encodeEntries (es : List SortedHashEntry) : List Nat :=
  (es.map fun e => if e.isPlaceholder then natToBytesBE 2 0xffff else e.hash).flatten

/-- `encodeCrossChainCallData` (IntentBuilder.ts lines 608-664): marker,
2-byte intent length, intent bytes, 1-byte hash-list count, then each entry —
2 bytes 0xFFFF for the placeholder, 32 raw bytes for a literal hash. The hash
list always contains a placeholder for the chain-specific current hash plus
literal entries for both `thisHash` and `otherHash`. -/
def encodeCrossChainCallData (intentJSON : List Nat) (thisHash otherHash : List Nat)
    (isSourceOp : Bool) : Except String (List Nat) :=
  if 0xffff < intentJSON.length then
    .error "intentJSON length exceeds maximum uint16 value"
  else
    .ok (natToBytesBE 2 0xffff ++
         natToBytesBE 2 intentJSON.length ++
         intentJSON ++
         (buildSortedHashList (if isSourceOp then thisHash else otherHash)
            [thisHash, otherHash]).length ::
         encodeEntries (buildSortedHashList (if isSourceOp then thisHash else otherHash)
            [thisHash, otherHash]))

/-- The conditions under which a literal 32-byte hash survives the cross-chain
codec round trip: 32 actual bytes, not all zero, and not starting with the two
bytes 0xFF 0xFF (which the parser would read as a placeholder). -/
def HashOK (h : List Nat) : Prop :=
  h.length = 32 ∧ Bytes h ∧ readUInt16BE h 0 ≠ 0xffff ∧ h.any (fun b => b ≠ 0)

instance : DecidablePred HashOK := fun _ =>
  inferInstanceAs (Decidable (_ ∧ _ ∧ _ ∧ _))

/-- The signature-shape rule as the (amended) specification words it: 0 for a
textual "0x" buffer; for length exactly 69, 69 with a recognized prefix and 0
without one; 69 for longer buffers with a recognized prefix; otherwise 65 when
at least 65 bytes long; otherwise 0. Stated from the spec for comparison with
the source's `getSignatureEndIdx`. -/
def signatureEndIdxSpec (signature : List Nat) : Nat :=
  if 2 ≤ signature.length ∧ signature.getD 0 0 = 0x30 ∧ signature.getD 1 0 = 0x78 then 0
  else if signature.length = 69 then
    if kernelPrefix4 signature then 69 else 0
  else if 69 < signature.length ∧ kernelPrefix4 signature then 69
  else if 65 ≤ signature.length then 65
  else 0

/-! ## Concrete example data used by witnesses and counterexamples -/

/-- A minimal well-formed cross-chain callData: marker, empty intent payload,
hash-list count 2, one placeholder and one literal non-zero 32-byte hash. -/
def ccXCallData : List Nat :=
  [0xff, 0xff, 0x00, 0x00, 0x02, 0xff, 0xff] ++ List.replicate 32 0x11

/-- An operation with every field empty or zero. -/
def emptyOp : UserOp :=
  { sender := 0, nonce := 0, initCode := [], callData := [], callGasLimit := 0,
    verificationGasLimit := 0, preVerificationGas := 0, maxFeePerGas := 0,
    maxPriorityFeePerGas := 0, paymasterAndData := [], signature := [] }

/-- A concrete secondary (embedded) cross-chain operation. -/
def aggSecondary : UserOp :=
  { emptyOp with
      nonce := 5, callData := ccXCallData, callGasLimit := 7,
      verificationGasLimit := 8, preVerificationGas := 9, maxFeePerGas := 10,
      maxPriorityFeePerGas := 11 }

/-- A concrete signed primary cross-chain operation with a plain 65-byte
signature. -/
def aggPrimary : UserOp :=
  { aggSecondary with nonce := 1, signature := List.replicate 65 0x09 }

/-- A primary whose 65-byte signature happens to begin with a recognized
4-byte kernel prefix. -/
def aggPrimaryKernel : UserOp :=
  { aggSecondary with
      nonce := 1, signature := 0 :: 0 :: 0 :: 1 :: List.replicate 61 0x07 }

/-- The packed block `getPackedData` produces for `aggSecondary`. -/
def packedSecondary : List Nat :=
  natToBytesBE 32 5 ++ natToBytesBE 8 7 ++ natToBytesBE 8 9 ++ natToBytesBE 8 8 ++
    (2 :: 0xff :: 0xff :: List.replicate 32 0x11)

/-- The primary after a successful aggregation of `aggSecondary`. -/
def aggResult : UserOp :=
  { aggPrimary with signature := List.replicate 65 0x09 ++ 1 :: packedSecondary }

/-- The operation of the spec's fixed reference-hash vector: the literal field
values of the repository's hash test. -/
def c1TestOp : UserOp :=
  { sender := 0x1234567890123456789012345678901234567890, nonce := 1,
    initCode := [], callData := [0x12, 0x34], callGasLimit := 1000000,
    verificationGasLimit := 1000000, preVerificationGas := 1000000,
    maxFeePerGas := 1000000000, maxPriorityFeePerGas := 1000000000,
    paymasterAndData := [], signature := [] }

/-! ## Helper lemmas: byte-order comparison -/

lemma bufCompare_self (a : List Nat) : bufCompare a a = .eq := by
  induction a with
  | nil => rfl
  | cons x xs ih => simp [bufCompare, Nat.lt_irrefl, ih]

lemma bufCompare_eq_iff {a b : List Nat} : bufCompare a b = .eq ↔ a = b := by
  induction a generalizing b with
  | nil => cases b <;> simp [bufCompare]
  | cons x xs ih =>
    cases b with
    | nil => simp [bufCompare]
    | cons y ys =>
      rcases Nat.lt_trichotomy x y with h | h | h
      · simp [bufCompare, h, Nat.ne_of_lt h]
      · subst h
        simp [bufCompare, Nat.lt_irrefl, ih]
      · simp [bufCompare, h, Nat.lt_asymm h, Ne.symm (Nat.ne_of_lt h)]

lemma bufCompare_swap (a b : List Nat) : bufCompare b a = (bufCompare a b).swap := by
  induction a generalizing b with
  | nil => cases b <;> rfl
  | cons x xs ih =>
    cases b with
    | nil => rfl
    | cons y ys =>
      rcases Nat.lt_trichotomy x y with h | h | h
      · simp only [bufCompare, if_pos h, if_neg (Nat.lt_asymm h), if_neg (Nat.not_lt.mpr (Nat.le_of_lt h))]
        rfl
      · subst h
        simp [bufCompare, Nat.lt_irrefl, ih]
      · simp only [bufCompare, if_pos h, if_neg (Nat.lt_asymm h), if_neg (Nat.not_lt.mpr (Nat.le_of_lt h))]
        rfl

lemma bufLt_iff {a b : List Nat} : bufLt a b = true ↔ bufCompare a b = .lt := by
  cases h : bufCompare a b <;> simp [bufLt, h] <;> decide

lemma bufLt_self (a : List Nat) : bufLt a a = false := by
  rw [bufLt, bufCompare_self]
  rfl

lemma bufLt_antisymm {a b : List Nat} (h1 : bufLt a b = false) (h2 : bufLt b a = false) :
    a = b := by
  rw [bufCompare_eq_iff.symm]
  rcases ho : bufCompare a b with _ | _ | _
  · rw [Bool.eq_false_iff] at h1
    exact absurd (bufLt_iff.mpr ho) h1
  · rfl
  · rw [Bool.eq_false_iff] at h2
    refine absurd (bufLt_iff.mpr ?_) h2
    rw [bufCompare_swap, ho]
    rfl

lemma bufLt_asymm {a b : List Nat} (h : bufLt a b = true) : bufLt b a = false := by
  rw [bufLt, bufCompare_swap, bufLt_iff.mp h]
  rfl

/-! ## C4: signature-shape detection -/

/-- C4 (counterexample): a 69-byte buffer without a recognized kernel prefix
yields boundary 0, not 65 as the claim states. -/
theorem c4_counterexample :
    getSignatureEndIdx (List.replicate 69 0xAA) = 0 ∧
    getSignatureEndIdx (List.replicate 69 0xAA) ≠ 65 := by
  decide

/-- `sigHasKernelPrefix` agrees with the bare 4-byte prefix check on buffers
of at least kernel length. -/
lemma sigHasKernelPrefix_of_ge {signature : List Nat} (h : 69 ≤ signature.length) :
    sigHasKernelPrefix signature = kernelPrefix4 signature := by
  unfold sigHasKernelPrefix
  rw [if_neg (by omega)]

/-- C4 (amended): `getSignatureEndIdx` returns 0 for a buffer starting with the
ASCII bytes "0x"; otherwise for length exactly 69 it returns 69 with a
recognized 4-byte kernel prefix and 0 without one (not 65); otherwise 69 when
the length exceeds 69 with a recognized prefix; otherwise 65 when the length is
at least 65; otherwise 0. -/
theorem c4_amended (signature : List Nat) :
    getSignatureEndIdx signature = signatureEndIdxSpec signature := by
  unfold getSignatureEndIdx signatureEndIdxSpec sigHasKernelPrefix
  split_ifs <;> first | rfl | omega

/-! ## C5: probe versus parser -/

/-- C5 (counterexample): the buffer FF FF 00 00 02 passes the structural probe
`isCrossChainData` with count bounds [2,3], yet `parseCrossChainData` raises on
it (its hash-list entries are missing), so the probe does not return false on
exactly the inputs where the parser raises. -/
theorem c5_counterexample :
    isCrossChainData [0xff, 0xff, 0x00, 0x00, 0x02] 2 3 = true ∧
    parseCrossChainData [0xff, 0xff, 0x00, 0x00, 0x02] =
      .error "Invalid hash list entry" := by
  decide

/-- C5 (amended): the implication holds in one direction only — whenever
`parseCrossChainData` succeeds on a buffer, `isCrossChainData` with count
bounds [2,3] accepts it; the probe checks just the marker, the length fields
and the hash-list count, not the entries. -/
theorem c5_amended (data : List Nat) (r : CrossChainData)
    (h : parseCrossChainData data = .ok r) :
    isCrossChainData data 2 3 = true := by
  unfold parseCrossChainData at h
  unfold isCrossChainData
  split_ifs at h with h1 h2 h3 h4 h5
  rw [if_neg h1, if_neg h2,
    if_neg (by omega : ¬ data.length < 4 + readUInt16BE data 2 + 1)]
  simp only [decide_eq_true_eq]
  omega

/-- C5 (witness): the amended implication applied to a concrete well-formed
cross-chain payload. -/
theorem c5_witness :
    isCrossChainData ([0xff, 0xff, 0x00, 0x00, 0x02, 0xff, 0xff] ++
      List.replicate 32 0x11) 2 3 = true :=
  c5_amended _
    ⟨[], [⟨true, []⟩, ⟨false, List.replicate 32 0x11⟩]⟩ (by decide)

/-! ## C6: order independence of the aggregate hash -/

/-- Sorting a two-element list of buffers with the stable comparator sort does
not depend on the input order (ties force equal buffers). -/
lemma sortBufs_pair_comm (x y : List Nat) : sortBufs [x, y] = sortBufs [y, x] := by
  show insertBuf y (insertBuf x []) = insertBuf x (insertBuf y [])
  simp only [insertBuf]
  by_cases hyx : bufLt y x = true
  · rw [if_pos hyx, if_neg (by rw [bufLt_asymm hyx]; exact Bool.false_ne_true)]
  · have hyx' : bufLt y x = false := Bool.not_eq_true _ |>.mp hyx
    rw [if_neg hyx]
    by_cases hxy : bufLt x y = true
    · rw [if_pos hxy]
    · have hxy' : bufLt x y = false := Bool.not_eq_true _ |>.mp hxy
      rw [if_neg hxy, bufLt_antisymm hxy' hyx']

/-- C6: the aggregate hash is order independent — for every pair of operations
and chain ids, `hashCrossChainUserOp [c1, c2] [A, B]` equals
`hashCrossChainUserOp [c2, c1] [B, A]`: the per-op hashes are sorted by
unsigned lexicographic byte order before concatenation and hashing. -/
theorem c6_order_independence (A B : UserOp) (c1 c2 : Nat) :
    hashCrossChainUserOp [c1, c2] [A, B] = hashCrossChainUserOp [c2, c1] [B, A] := by
  unfold hashCrossChainUserOp
  rw [if_neg (by simp), if_neg (by simp)]
  simp only [List.zip, List.zipWith, List.map]
  rw [sortBufs_pair_comm]

/-! ## C10: the parser tolerates trailing bytes -/

/-- A 16-bit read within the first buffer is unchanged by appending a suffix. -/
lemma readUInt16BE_append {l s : List Nat} {i : Nat} (h : i + 2 ≤ l.length) :
    readUInt16BE (l ++ s) i = readUInt16BE l i := by
  unfold readUInt16BE
  rw [List.getD_append _ _ _ _ (by omega), List.getD_append _ _ _ _ (by omega)]

/-- A 32-byte slice within the first buffer is unchanged by appending a
suffix. -/
lemma slice32_append {l s : List Nat} {i : Nat} (h : i + 32 ≤ l.length) :
    ((l ++ s).drop i).take 32 = (l.drop i).take 32 := by
  rw [List.drop_append_of_le_length (by omega),
    List.take_append_of_le_length (by simp only [List.length_drop]; omega)]

/-- The hash-list reading loop is unchanged by appending a suffix to a buffer
it successfully consumes: every read it performs stays within the original
buffer. -/
lemma parseHashListLoop_append (B S : List Nat) :
    ∀ (n offset : Nat) (found : Bool) r,
      parseHashListLoop B offset n found = .ok r →
      parseHashListLoop (B ++ S) offset n found = .ok r := by
  intro n
  induction n with
  | zero =>
    intro offset found r h
    exact h
  | succ n ih =>
    intro offset found r h
    unfold parseHashListLoop at h ⊢
    split_ifs at h
    · -- placeholder entry
      rw [if_neg (by simp only [List.length_append]; omega),
        readUInt16BE_append (by omega),
        if_pos (by assumption : readUInt16BE B offset = 0xffff),
        if_neg (by assumption : ¬ found = true)]
      cases hrec : parseHashListLoop B (offset + 2) n true with
      | error e =>
        rw [hrec] at h
        exact Except.noConfusion h
      | ok p =>
        rw [hrec] at h
        rw [ih (offset + 2) true p hrec]
        exact h
    · -- literal 32-byte hash entry
      rw [if_neg (by simp only [List.length_append]; omega),
        readUInt16BE_append (by omega),
        if_neg (by assumption : ¬ readUInt16BE B offset = 0xffff),
        if_neg (by simp only [List.length_append]; omega),
        slice32_append (by omega),
        if_neg (by assumption :
          ¬ (!validateOperationHash ((B.drop offset).take 32)) = true)]
      cases hrec : parseHashListLoop B (offset + 32) n found with
      | error e =>
        rw [hrec] at h
        exact Except.noConfusion h
      | ok p =>
        rw [hrec] at h
        rw [ih (offset + 32) found p hrec]
        exact h

/-- C10: trailing bytes after a parseable cross-chain payload are ignored —
for every buffer `B` on which `parseCrossChainData` succeeds and every suffix
`S`, parsing `B ++ S` succeeds with the identical intent payload and hash
list. -/
theorem c10_trailing_bytes (B S : List Nat) (r : CrossChainData)
    (h : parseCrossChainData B = .ok r) :
    parseCrossChainData (B ++ S) = .ok r := by
  unfold parseCrossChainData at h ⊢
  split_ifs at h with h1 h2 h3 h4 h5
  have h0 : readUInt16BE (B ++ S) 0 = readUInt16BE B 0 := readUInt16BE_append (by omega)
  have hL : readUInt16BE (B ++ S) 2 = readUInt16BE B 2 := readUInt16BE_append (by omega)
  have hg : (B ++ S).getD (4 + readUInt16BE B 2) 0 = B.getD (4 + readUInt16BE B 2) 0 :=
    List.getD_append _ _ _ _ (by omega)
  have hIJ : ((B ++ S).drop 4).take (readUInt16BE B 2) =
      (B.drop 4).take (readUInt16BE B 2) := by
    rw [List.drop_append_of_le_length (by omega),
      List.take_append_of_le_length (by simp only [List.length_drop]; omega)]
  rw [if_neg (by simp only [List.length_append]; omega), h0, if_neg h2, hL,
    if_neg (by simp only [List.length_append]; omega),
    if_neg (by simp only [List.length_append]; omega),
    hg, if_neg h5, hIJ]
  cases hrec : parseHashListLoop B (4 + readUInt16BE B 2 + 1)
      (B.getD (4 + readUInt16BE B 2) 0) false with
  | error e =>
    rw [hrec] at h
    exact Except.noConfusion h
  | ok p =>
    rw [hrec] at h
    rw [parseHashListLoop_append B S _ _ _ _ hrec]
    exact h

/-- C10 (witness): trailing-byte tolerance applied to a concrete parseable
payload with one trailing byte. -/
theorem c10_witness :
    parseCrossChainData (([0xff, 0xff, 0x00, 0x00, 0x02, 0xff, 0xff] ++
        List.replicate 32 0x11) ++ [0x2a]) =
      .ok ⟨[], [⟨true, []⟩, ⟨false, List.replicate 32 0x11⟩]⟩ :=
  c10_trailing_bytes _ [0x2a] _ (by decide)

/-! ## C8: aggregate rejects invalid inputs atomically -/

/-- The detected boundary never exceeds the signature length. -/
lemma getSignatureEndIdx_le (signature : List Nat) :
    getSignatureEndIdx signature ≤ signature.length := by
  unfold getSignatureEndIdx
  split_ifs <;> omega

/-- C8: if the primary's signature is empty, or no boundary is detected, or
either operation fails the cross-chain classification, then `aggregate` throws
and both operations are left exactly as they were. -/
theorem c8_reject_invalid (p s : UserOp)
    (h : p.signature = [] ∨ getSignatureEndIdx p.signature = 0 ∨
      isCrossChainOperation p = false ∨ isCrossChainOperation s = false) :
    (∃ msg, aggregate p s = .error msg) ∧ aggregateRun p s = (p, s) := by
  have herr : ∃ msg, aggregate p s = .error msg := by
    unfold aggregate
    by_cases hp : isCrossChainOperation p = true
    · by_cases hs : isCrossChainOperation s = true
      · have hz : getSignatureEndIdx p.signature = 0 := by
          rcases h with h | h | h | h
          · rw [h]
            decide
          · exact h
          · rw [h] at hp
            exact absurd hp (by simp)
          · rw [h] at hs
            exact absurd hs (by simp)
        exact ⟨_, by rw [if_neg (by simp [hp]), if_neg (by simp [hs]), if_pos hz]⟩
      · exact ⟨_, by rw [if_neg (by simp [hp]),
          if_pos (by simp [Bool.not_eq_true _ |>.mp hs])]⟩
    · exact ⟨_, by rw [if_pos (by simp [Bool.not_eq_true _ |>.mp hp])]⟩
  obtain ⟨msg, hmsg⟩ := herr
  refine ⟨⟨msg, hmsg⟩, ?_⟩
  unfold aggregateRun
  rw [hmsg]

/-- C8 (witness): a concrete rejected pair — empty signature, ordinary
callData — is thrown out with both operations untouched. -/
theorem c8_witness :
    (emptyOp.signature = [] ∨ getSignatureEndIdx emptyOp.signature = 0 ∨
      isCrossChainOperation emptyOp = false ∨ isCrossChainOperation emptyOp = false) ∧
    (∃ msg, aggregate emptyOp emptyOp = .error msg) ∧
    aggregateRun emptyOp emptyOp = (emptyOp, emptyOp) :=
  ⟨by decide, c8_reject_invalid emptyOp emptyOp (by decide)⟩

/-! ## C9: frame property of aggregation -/

/-- A byte list of length `n + 1` with head 1 and tail `t` is `1 :: t`. -/
lemma eq_one_cons_of_parts {l t : List Nat} (hlen : l.length = t.length + 1)
    (h0 : l.getD 0 0 = 1) (htl : l.drop 1 = t) : l = 1 :: t := by
  cases l with
  | nil => exact absurd hlen (by simp)
  | cons a rest =>
    simp only [List.getD, List.get?_cons_zero, Option.getD_some] at h0
    simp only [List.drop_one, List.tail_cons] at htl
    rw [h0, htl]

/-- A successful `aggregate` passed both classifier checks, found a non-zero
boundary, packed the embedded operation, and either took the idempotent branch
(signature tail already equal to 0x01 ++ packed block) or rewrote the
signature to base ++ 0x01 ++ packed block. -/
lemma aggregate_ok_cases {p s p' : UserOp} (h : aggregate p s = .ok p') :
    ∃ packed, getPackedData s = .ok packed ∧
      isCrossChainOperation p = true ∧ isCrossChainOperation s = true ∧
      getSignatureEndIdx p.signature ≠ 0 ∧
      ((p' = p ∧
        p.signature.drop (getSignatureEndIdx p.signature) = 1 :: packed) ∨
       p' = { p with
              signature := p.signature.take (getSignatureEndIdx p.signature) ++
                1 :: packed }) := by
  unfold aggregate at h
  split_ifs at h with h1 h2 h3
  have hccp : isCrossChainOperation p = true := by
    simpa using h1
  have hccs : isCrossChainOperation s = true := by
    simpa using h2
  cases hgp : getPackedData s with
  | error e =>
    rw [hgp] at h
    exact Except.noConfusion h
  | ok packed =>
    rw [hgp] at h
    replace h :
        (if (p.signature.drop (getSignatureEndIdx p.signature)).length =
              packed.length + 1 ∧
            (p.signature.drop (getSignatureEndIdx p.signature)).getD 0 0 = 1 ∧
            (p.signature.drop (getSignatureEndIdx p.signature)).drop 1 = packed then
          Except.ok p
        else
          Except.ok { p with
            signature := p.signature.take (getSignatureEndIdx p.signature) ++
              1 :: packed }) = Except.ok p' := h
    split_ifs at h with hid
    · simp only [Except.ok.injEq] at h
      exact ⟨packed, hgp ▸ rfl, hccp, hccs, h3,
        Or.inl ⟨h.symm, eq_one_cons_of_parts hid.1 hid.2.1 hid.2.2⟩⟩
    · simp only [Except.ok.injEq] at h
      exact ⟨packed, hgp ▸ rfl, hccp, hccs, h3, Or.inr h.symm⟩

/-- C9: a successful `aggregate(primary, secondary)` modifies only the
primary's signature: the secondary and every other primary field are
unchanged, and the base signature (the first `getSignatureEndIdx` bytes) is
preserved byte for byte. -/
theorem c9_frame (p s p' : UserOp) (h : aggregate p s = .ok p') :
    aggregateRun p s = (p', s) ∧
    p'.sender = p.sender ∧ p'.nonce = p.nonce ∧ p'.initCode = p.initCode ∧
    p'.callData = p.callData ∧ p'.callGasLimit = p.callGasLimit ∧
    p'.verificationGasLimit = p.verificationGasLimit ∧
    p'.preVerificationGas = p.preVerificationGas ∧
    p'.maxFeePerGas = p.maxFeePerGas ∧
    p'.maxPriorityFeePerGas = p.maxPriorityFeePerGas ∧
    p'.paymasterAndData = p.paymasterAndData ∧
    p'.signature.take (getSignatureEndIdx p.signature) =
      p.signature.take (getSignatureEndIdx p.signature) := by
  have hrun : aggregateRun p s = (p', s) := by
    unfold aggregateRun
    rw [h]
  obtain ⟨packed, _, _, _, _, hcase⟩ := aggregate_ok_cases h
  rcases hcase with ⟨hc, _⟩ | hc
  · subst hc
    exact ⟨hrun, rfl, rfl, rfl, rfl, rfl, rfl, rfl, rfl, rfl, rfl, rfl⟩
  · subst hc
    refine ⟨hrun, rfl, rfl, rfl, rfl, rfl, rfl, rfl, rfl, rfl, rfl, ?_⟩
    have hle : getSignatureEndIdx p.signature ≤ p.signature.length :=
      getSignatureEndIdx_le _
    rw [List.take_append_of_le_length (by simp only [List.length_take]; omega),
      List.take_take, Nat.min_self]

/-- C9 (witness): the frame property at a concrete successful aggregation. -/
theorem c9_witness :
    aggregate aggPrimary aggSecondary = .ok aggResult ∧
    (aggregateRun aggPrimary aggSecondary = (aggResult, aggSecondary) ∧
     aggResult.sender = aggPrimary.sender ∧ aggResult.nonce = aggPrimary.nonce ∧
     aggResult.initCode = aggPrimary.initCode ∧
     aggResult.callData = aggPrimary.callData ∧
     aggResult.callGasLimit = aggPrimary.callGasLimit ∧
     aggResult.verificationGasLimit = aggPrimary.verificationGasLimit ∧
     aggResult.preVerificationGas = aggPrimary.preVerificationGas ∧
     aggResult.maxFeePerGas = aggPrimary.maxFeePerGas ∧
     aggResult.maxPriorityFeePerGas = aggPrimary.maxPriorityFeePerGas ∧
     aggResult.paymasterAndData = aggPrimary.paymasterAndData ∧
     aggResult.signature.take (getSignatureEndIdx aggPrimary.signature) =
       aggPrimary.signature.take (getSignatureEndIdx aggPrimary.signature)) :=
  ⟨by decide, c9_frame aggPrimary aggSecondary aggResult (by decide)⟩

/-! ## C2: the packed block appended by aggregation -/

/-- C2 (counterexample): at a concrete successful aggregation, the block
appended after the 0x01 marker is not the claimed serialization with 32-byte
maxFeePerGas and maxPriorityFeePerGas fields; it is the serialization without
them. -/
theorem c2_counterexample :
    (aggregate aggPrimary aggSecondary).map (fun q => q.signature) ≠
      .ok (aggPrimary.signature.take 65 ++
        1 :: (natToBytesBE 32 aggSecondary.nonce ++
          natToBytesBE 8 aggSecondary.callGasLimit ++
          natToBytesBE 8 aggSecondary.preVerificationGas ++
          natToBytesBE 8 aggSecondary.verificationGasLimit ++
          natToBytesBE 32 aggSecondary.maxFeePerGas ++
          natToBytesBE 32 aggSecondary.maxPriorityFeePerGas ++
          (2 :: 0xff :: 0xff :: List.replicate 32 0x11))) ∧
    (aggregate aggPrimary aggSecondary).map (fun q => q.signature) =
      .ok (aggPrimary.signature.take 65 ++ 1 :: packedSecondary) := by
  decide

/-- C2 (amended): for every secondary operation accepted by `aggregate` (with
field values inside the widths the source can pack without throwing), the
packed block after the 0x01 marker is exactly: 32-byte nonce, 8-byte
callGasLimit, 8-byte preVerificationGas, 8-byte verificationGasLimit, the
serialized hash list from the secondary's decoded callData payload (1-byte
count then entries), and — only when non-empty — the raw initCode bytes. No
fee fields are packed. -/
theorem c2_amended (p s p' : UserOp) (ccd : CrossChainData) (hlb : List Nat)
    (hparse : parseCrossChainData s.callData = .ok ccd)
    (hser : serializeHashList ccd.hashList = .ok hlb)
    (_hN : s.nonce < 256 ^ 32) (_hC : s.callGasLimit < 256 ^ 8)
    (_hP : s.preVerificationGas < 256 ^ 8) (_hV : s.verificationGasLimit < 256 ^ 8)
    (hagg : aggregate p s = .ok p') :
    p'.signature = p.signature.take (getSignatureEndIdx p.signature) ++
      1 :: (natToBytesBE 32 s.nonce ++ natToBytesBE 8 s.callGasLimit ++
        natToBytesBE 8 s.preVerificationGas ++
        natToBytesBE 8 s.verificationGasLimit ++ hlb ++
        (if 0 < s.initCode.length then s.initCode else [])) := by
  obtain ⟨packed, hgp, _, _, _, hcase⟩ := aggregate_ok_cases hagg
  have hgp2 : getPackedData s = .ok (zeroPadValue 32 s.nonce ++
      zeroPadValue 8 s.callGasLimit ++ zeroPadValue 8 s.preVerificationGas ++
      zeroPadValue 8 s.verificationGasLimit ++ hlb ++
      (if 0 < s.initCode.length then s.initCode else [])) := by
    unfold getPackedData
    rw [hparse]
    show Except.bind (serializeHashList ccd.hashList) _ = _
    rw [hser]
    rfl
  have hpacked : packed = natToBytesBE 32 s.nonce ++ natToBytesBE 8 s.callGasLimit ++
      natToBytesBE 8 s.preVerificationGas ++ natToBytesBE 8 s.verificationGasLimit ++
      hlb ++ (if 0 < s.initCode.length then s.initCode else []) := by
    rw [hgp] at hgp2
    simpa only [Except.ok.injEq, zeroPadValue] using hgp2
  rcases hcase with ⟨hpp, htail⟩ | hmod
  · subst hpp
    rw [← hpacked, ← htail, List.take_append_drop]
  · rw [hmod, ← hpacked]

/-- C2 (witness): the amended packed-block layout at the concrete
aggregation of `aggSecondary` into `aggPrimary`. -/
theorem c2_witness :
    parseCrossChainData aggSecondary.callData =
      .ok ⟨[], [⟨true, []⟩, ⟨false, List.replicate 32 0x11⟩]⟩ ∧
    serializeHashList [⟨true, []⟩, ⟨false, List.replicate 32 0x11⟩] =
      .ok (2 :: 0xff :: 0xff :: List.replicate 32 0x11) ∧
    aggregate aggPrimary aggSecondary = .ok aggResult ∧
    aggResult.signature =
      aggPrimary.signature.take (getSignatureEndIdx aggPrimary.signature) ++
        1 :: (natToBytesBE 32 aggSecondary.nonce ++
          natToBytesBE 8 aggSecondary.callGasLimit ++
          natToBytesBE 8 aggSecondary.preVerificationGas ++
          natToBytesBE 8 aggSecondary.verificationGasLimit ++
          (2 :: 0xff :: 0xff :: List.replicate 32 0x11) ++
          (if 0 < aggSecondary.initCode.length then aggSecondary.initCode else [])) :=
  ⟨by decide, by decide, by decide,
   c2_amended aggPrimary aggSecondary aggResult
     ⟨[], [⟨true, []⟩, ⟨false, List.replicate 32 0x11⟩]⟩
     (2 :: 0xff :: 0xff :: List.replicate 32 0x11)
     (by decide) (by decide) (by decide) (by decide) (by decide) (by decide)
     (by decide)⟩

/-! ## C7: idempotency of aggregation -/

/-- C7 (counterexample): with a 65-byte base signature that happens to begin
with a recognized kernel prefix, both aggregate calls succeed but the second
re-detects the boundary at 69 and rewrites the signature, so the result is not
byte-identical to the first. -/
theorem c7_counterexample :
    (aggregate aggPrimaryKernel aggSecondary).bind
      (fun p1 => (aggregate p1 aggSecondary).map
        (fun p2 => decide (p2.signature = p1.signature))) = .ok false := by
  decide

/-- Each fixed-width big-endian encoding has exactly its declared width. -/
lemma natToBytesBE_length (w v : Nat) : (natToBytesBE w v).length = w := by
  simp [natToBytesBE]

/-- A packed block is at least 56 bytes long (the four fixed-width fields). -/
lemma getPackedData_length {s : UserOp} {packed : List Nat}
    (h : getPackedData s = .ok packed) : 56 ≤ packed.length := by
  unfold getPackedData at h
  cases hp : parseCrossChainData s.callData with
  | error e =>
    rw [hp] at h
    exact Except.noConfusion h
  | ok ccd =>
    rw [hp] at h
    replace h : Except.bind (serializeHashList ccd.hashList) _ = Except.ok packed := h
    cases hs : serializeHashList ccd.hashList with
    | error e =>
      rw [hs] at h
      exact Except.noConfusion h
    | ok hlb =>
      rw [hs] at h
      replace h : Except.ok (zeroPadValue 32 s.nonce ++ zeroPadValue 8 s.callGasLimit ++
          zeroPadValue 8 s.preVerificationGas ++ zeroPadValue 8 s.verificationGasLimit ++
          hlb ++ (if 0 < s.initCode.length then s.initCode else [])) =
          Except.ok packed := h
      simp only [Except.ok.injEq] at h
      rw [← h]
      simp only [zeroPadValue, List.length_append, natToBytesBE_length]
      omega

/-- The boundary is always 0, 65, or 69. -/
lemma getSignatureEndIdx_cases (signature : List Nat) :
    getSignatureEndIdx signature = 0 ∨ getSignatureEndIdx signature = 65 ∨
      getSignatureEndIdx signature = 69 := by
  unfold getSignatureEndIdx
  split_ifs <;> simp

/-- A non-zero boundary means the buffer is at least 65 bytes and does not
start with the ASCII bytes "0x". -/
lemma getSignatureEndIdx_ne_zero_facts {signature : List Nat}
    (h : getSignatureEndIdx signature ≠ 0) :
    65 ≤ signature.length ∧
      ¬(signature.getD 0 0 = 0x30 ∧ signature.getD 1 0 = 0x78) := by
  unfold getSignatureEndIdx at h
  split_ifs at h with h1 h2 h3 h4 h5
  · exact ⟨by omega, h1.2⟩
  · exact absurd rfl h
  · exact ⟨by omega, h1.2⟩
  · exact ⟨by omega, h1.2⟩
  · exact absurd rfl h
  · exact absurd rfl h

/-- A boundary of 69 means the buffer passed the kernel-prefix test. -/
lemma getSignatureEndIdx_eq_69_kernel {signature : List Nat}
    (h : getSignatureEndIdx signature = 69) :
    sigHasKernelPrefix signature = true := by
  unfold getSignatureEndIdx at h
  split_ifs at h with h1 h2 h3 h4 h5
  · exact h3
  · exact h4.2
  · exact absurd h (by omega)

/-- A byte read below the cut of `take n` is a read of the original list. -/
lemma getD_take_append {l rest : List Nat} {n i : Nat} (hi : i < n)
    (hn : n ≤ l.length) :
    (l.take n ++ rest).getD i 0 = l.getD i 0 := by
  rw [List.getD_append _ _ _ _ (by rw [List.length_take]; omega)]
  simp only [List.getD]
  rw [List.get?_eq_getElem?, List.get?_eq_getElem?, List.getElem?_take_of_lt hi]

/-- The first four bytes below the cut of `take n` are those of the original
list. -/
lemma take4_take_append {l rest : List Nat} {n : Nat} (h4 : 4 ≤ n)
    (hn : n ≤ l.length) :
    (l.take n ++ rest).take 4 = l.take 4 := by
  rw [List.take_append_of_le_length (by rw [List.length_take]; omega),
    List.take_take, Nat.min_eq_left h4]

/-- Dropping the base length of an aggregated signature exposes its tail. -/
lemma drop_take_append {l rest : List Nat} {n : Nat} (hn : n ≤ l.length) :
    (l.take n ++ rest).drop n = rest := by
  have h := List.drop_left (l.take n) rest
  rwa [List.length_take, Nat.min_eq_left hn] at h

/-- `sigHasKernelPrefix` unpacked. -/
lemma sigHasKernelPrefix_true_iff {signature : List Nat} :
    sigHasKernelPrefix signature = true ↔
      69 ≤ signature.length ∧ kernelPrefix4 signature = true := by
  unfold sigHasKernelPrefix
  split_ifs with h
  · simp only [Bool.false_eq_true, false_iff]
    intro hc
    omega
  · exact ⟨fun hk => ⟨by omega, hk⟩, fun hc => hc.2⟩

/-- Boundary stability: appending at least 57 bytes after the detected base
signature does not move the boundary, provided the base is not a plain 65-byte
signature that happens to carry a kernel prefix. -/
lemma boundary_stable {sig rest : List Nat}
    (hnz : getSignatureEndIdx sig ≠ 0)
    (hk : getSignatureEndIdx sig = 69 ∨ kernelPrefix4 sig = false)
    (hrest : 57 ≤ rest.length) :
    getSignatureEndIdx (sig.take (getSignatureEndIdx sig) ++ rest) =
      getSignatureEndIdx sig := by
  obtain ⟨h65, h0x⟩ := getSignatureEndIdx_ne_zero_facts hnz
  have hle := getSignatureEndIdx_le sig
  rcases getSignatureEndIdx_cases sig with h | h | h
  · exact absurd h hnz
  · -- plain 65-byte boundary, no kernel prefix on the base
    have hk4 : kernelPrefix4 sig = false := by
      rcases hk with hk | hk
      · rw [h] at hk
        exact absurd hk (by omega)
      · exact hk
    rw [h]
    have hlen' : (sig.take 65 ++ rest).length = 65 + rest.length := by
      simp only [List.length_append, List.length_take]
      omega
    have hkp4' : kernelPrefix4 (sig.take 65 ++ rest) = false := by
      unfold kernelPrefix4 at hk4 ⊢
      rw [take4_take_append (by omega) (by omega)]
      exact hk4
    unfold getSignatureEndIdx
    rw [if_pos ⟨by omega, by
        rw [getD_take_append (by omega) (by omega),
          getD_take_append (by omega) (by omega)]
        exact h0x⟩,
      if_neg (by omega : ¬ (sig.take 65 ++ rest).length = 69),
      if_neg ?hker, if_pos (by omega)]
    case hker =>
      intro hc
      have hx := hc.2
      rw [sigHasKernelPrefix_of_ge (by omega), hkp4'] at hx
      exact Bool.false_ne_true hx
  · -- kernel 69-byte boundary
    have hkp := getSignatureEndIdx_eq_69_kernel h
    obtain ⟨h69le, hk4⟩ := sigHasKernelPrefix_true_iff.mp hkp
    rw [h]
    have hlen' : (sig.take 69 ++ rest).length = 69 + rest.length := by
      simp only [List.length_append, List.length_take]
      omega
    have hkp4' : kernelPrefix4 (sig.take 69 ++ rest) = true := by
      unfold kernelPrefix4 at hk4 ⊢
      rw [take4_take_append (by omega) (by omega)]
      exact hk4
    unfold getSignatureEndIdx
    rw [if_pos ⟨by omega, by
        rw [getD_take_append (by omega) (by omega),
          getD_take_append (by omega) (by omega)]
        exact h0x⟩,
      if_neg (by omega : ¬ (sig.take 69 ++ rest).length = 69),
      if_pos ⟨by omega, by rw [sigHasKernelPrefix_of_ge (by omega)]; exact hkp4'⟩]

/-- C7 (amended): aggregation is idempotent provided the primary's callData is
itself cross-chain and the base-signature boundary is stable — either it is the
69-byte kernel boundary, or the signature's first four bytes are not a
recognized kernel prefix (a 65-byte base that starts with a kernel prefix makes
the second call re-detect the boundary at 69 and re-aggregate). Under these
conditions a second `aggregate` with the same secondary returns the primary
unchanged. -/
theorem c7_amended (p s p' : UserOp)
    (hcd : isCrossChainData p.callData 2 3 = true)
    (hk : getSignatureEndIdx p.signature = 69 ∨ kernelPrefix4 p.signature = false)
    (hagg : aggregate p s = .ok p') :
    aggregate p' s = .ok p' := by
  obtain ⟨packed, hgp, hccp, hccs, hnz, hcase⟩ := aggregate_ok_cases hagg
  rcases hcase with ⟨hpp, _⟩ | hmod
  · rw [hpp]
    rw [hpp] at hagg
    exact hagg
  · have hle := getSignatureEndIdx_le p.signature
    have hplen := getPackedData_length hgp
    have hsig' : p'.signature =
        p.signature.take (getSignatureEndIdx p.signature) ++ 1 :: packed := by
      rw [hmod]
    have hcd' : p'.callData = p.callData := by
      rw [hmod]
    have hstable : getSignatureEndIdx p'.signature = getSignatureEndIdx p.signature := by
      rw [hsig']
      exact boundary_stable hnz hk (by simp only [List.length_cons]; omega)
    have htail : p'.signature.drop (getSignatureEndIdx p'.signature) = 1 :: packed := by
      rw [hstable, hsig', drop_take_append hle]
    unfold aggregate
    rw [if_neg (by
        unfold isCrossChainOperation
        rw [hcd', hcd]
        simp),
      if_neg (by simp [hccs]),
      if_neg (by rw [hstable]; exact hnz), hgp]
    show (if (p'.signature.drop (getSignatureEndIdx p'.signature)).length =
            packed.length + 1 ∧
          (p'.signature.drop (getSignatureEndIdx p'.signature)).getD 0 0 = 1 ∧
          (p'.signature.drop (getSignatureEndIdx p'.signature)).drop 1 = packed then
        Except.ok p'
      else
        Except.ok { p' with
          signature := p'.signature.take (getSignatureEndIdx p'.signature) ++
            1 :: packed }) = Except.ok p'
    rw [if_pos ⟨by rw [htail]; simp, by rw [htail]; rfl, by rw [htail]; rfl⟩]

/-- C7 (witness): the amended idempotency at the concrete aggregation of
`aggSecondary` into `aggPrimary` (plain 65-byte base signature without kernel
prefix): a second aggregate call returns the result unchanged. -/
theorem c7_witness :
    isCrossChainData aggPrimary.callData 2 3 = true ∧
    kernelPrefix4 aggPrimary.signature = false ∧
    aggregate aggPrimary aggSecondary = .ok aggResult ∧
    aggregate aggResult aggSecondary = .ok aggResult :=
  ⟨by decide, by decide, by decide,
   c7_amended aggPrimary aggSecondary aggResult (by decide) (Or.inr (by decide))
     (by decide)⟩

/-! ## C3: encode/decode round trip of the cross-chain callData codec -/

/-- A 16-bit read at the seam of an append reads the second part's start. -/
lemma readUInt16BE_at_append (pre X : List Nat) :
    readUInt16BE (pre ++ X) pre.length = readUInt16BE X 0 := by
  unfold readUInt16BE
  rw [List.getD_append_right _ _ _ _ (Nat.le_refl _),
    List.getD_append_right _ _ _ _ (by omega)]
  simp

/-- The two big-endian bytes of a value below 2^16 read back as the value. -/
lemma readUInt16BE_natToBytesBE2 {L : Nat} (hL : L ≤ 0xffff) :
    readUInt16BE (natToBytesBE 2 L) 0 = L := by
  have h2 : natToBytesBE 2 L = [(L >>> 8) % 256, L % 256] := by
    simp [natToBytesBE, List.range_succ]
  rw [h2]
  unfold readUInt16BE
  simp only [List.getD, List.get?_cons_zero, List.get?_cons_succ, Option.getD_some]
  rw [Nat.shiftRight_eq_div_pow]
  have : L / 2 ^ 8 < 256 := by omega
  rw [Nat.mod_eq_of_lt this]
  omega

/-- Reading back the serialized entries: starting right after a prefix of the
buffer, the hash-list loop recovers exactly the serialized entries, provided
every literal hash is 32 bytes, non-zero and does not start with 0xFFFF, and
at most one placeholder occurs counting any already-seen one. -/
lemma parseHashListLoop_encode :
    ∀ (es : List SortedHashEntry) (pre : List Nat) (found : Bool),
      (∀ e ∈ es, e.isPlaceholder = false →
        e.hash.length = 32 ∧ readUInt16BE e.hash 0 ≠ 0xffff ∧
          validateOperationHash e.hash = true) →
      (found = true → ∀ e ∈ es, e.isPlaceholder = false) →
      es.countP (fun e => e.isPlaceholder) ≤ 1 →
      parseHashListLoop (pre ++ encodeEntries es) pre.length es.length found =
        .ok (es.map (fun e => ⟨e.isPlaceholder, if e.isPlaceholder then [] else e.hash⟩),
             found || es.any (fun e => e.isPlaceholder)) := by
  intro es
  induction es with
  | nil =>
    intro pre found _ _ _
    simp [parseHashListLoop, encodeEntries]
  | cons e es ih =>
    intro pre found hlit hfound hcount
    simp only [List.length_cons]
    unfold parseHashListLoop
    cases hpe : e.isPlaceholder
    · -- literal 32-byte entry
      obtain ⟨hlen32, hne, hval⟩ := hlit e (List.mem_cons_self e es) hpe
      have hee : encodeEntries (e :: es) = e.hash ++ encodeEntries es := by
        simp [encodeEntries, hpe]
      rw [hee, ← List.append_assoc]
      have hplen : (pre ++ e.hash).length = pre.length + 32 := by
        simp [hlen32]
      have hr16 : readUInt16BE ((pre ++ e.hash) ++ encodeEntries es) pre.length =
          readUInt16BE e.hash 0 := by
        rw [List.append_assoc, readUInt16BE_at_append pre (e.hash ++ encodeEntries es),
          readUInt16BE_append (by omega)]
      rw [if_neg (by simp only [List.length_append]; omega), hr16, if_neg hne,
        if_neg (by simp only [List.length_append, hlen32]; omega)]
      have hslice : (((pre ++ e.hash) ++ encodeEntries es).drop pre.length).take 32 =
          e.hash := by
        rw [List.append_assoc, List.drop_left,
          List.take_append_of_le_length (by omega), ← hlen32, List.take_length]
      rw [hslice, if_neg (by rw [hval]; simp)]
      have hrec := ih (pre ++ e.hash) found
        (fun x hx hpx => hlit x (List.mem_cons_of_mem e hx) hpx)
        (fun hf x hx => hfound hf x (List.mem_cons_of_mem e hx))
        (by simpa [List.countP_cons, hpe] using hcount)
      rw [hplen] at hrec
      rw [List.append_assoc] at hrec ⊢
      rw [hrec]
      simp only [hpe, List.map_cons, List.any_cons, Bool.true_or, Bool.false_or]
      rfl
    · -- placeholder entry
      have hfoundF : found = false := by
        cases hf : found
        · rfl
        · exact absurd hpe (by simp [hfound hf e (List.mem_cons_self e es)])
      subst hfoundF
      have hmarker : natToBytesBE 2 0xffff = [0xff, 0xff] := by decide
      have hee : encodeEntries (e :: es) = [0xff, 0xff] ++ encodeEntries es := by
        simp [encodeEntries, hpe, hmarker]
      rw [hee, ← List.append_assoc]
      have hplen : (pre ++ [0xff, 0xff]).length = pre.length + 2 := by
        simp
      have hr16 : readUInt16BE ((pre ++ [0xff, 0xff]) ++ encodeEntries es) pre.length =
          0xffff := by
        rw [List.append_assoc, readUInt16BE_at_append pre ([0xff, 0xff] ++ encodeEntries es),
          readUInt16BE_append (by simp)]
        decide
      rw [if_neg (by
          simp only [List.length_append, List.length_cons, List.length_nil]
          omega), hr16, if_pos rfl, if_neg (by simp)]
      have hnone : ∀ x ∈ es, x.isPlaceholder = false := by
        intro x hx
        have hcc := hcount
        simp only [List.countP_cons, hpe, if_pos] at hcc
        have hz : es.countP (fun e => e.isPlaceholder) = 0 := by omega
        have := List.countP_eq_zero.mp hz x hx
        simpa using this
      have hrec := ih (pre ++ [0xff, 0xff]) true
        (fun x hx hpx => hlit x (List.mem_cons_of_mem e hx) hpx)
        (fun _ => hnone)
        (by
          have hz : es.countP (fun e => e.isPlaceholder) = 0 :=
            List.countP_eq_zero.mpr (by
              intro x hx
              simp [hnone x hx])
          omega)
      rw [hplen] at hrec
      rw [List.append_assoc] at hrec ⊢
      rw [hrec]
      simp only [hpe, List.map_cons, List.any_cons, Bool.true_or, Bool.false_or]
      rfl

/-- Decoding the exact output layout of the encoder: marker, 2-byte intent
length, intent bytes, 1-byte count, serialized entries. -/
lemma parseCrossChainData_encode (intentJSON : List Nat) (es : List SortedHashEntry)
    (hIJ : intentJSON.length ≤ 0xffff)
    (hc2 : 2 ≤ es.length) (hc3 : es.length ≤ 3)
    (hone : es.countP (fun e => e.isPlaceholder) = 1)
    (hlit : ∀ e ∈ es, e.isPlaceholder = false →
      e.hash.length = 32 ∧ readUInt16BE e.hash 0 ≠ 0xffff ∧
        validateOperationHash e.hash = true) :
    parseCrossChainData (natToBytesBE 2 0xffff ++ natToBytesBE 2 intentJSON.length ++
        intentJSON ++ es.length :: encodeEntries es) =
      .ok ⟨intentJSON,
           es.map fun e => ⟨e.isPlaceholder, if e.isPlaceholder then [] else e.hash⟩⟩ := by
  have hm : natToBytesBE 2 0xffff = [0xff, 0xff] := by decide
  have hlen2 : (natToBytesBE 2 intentJSON.length).length = 2 := natToBytesBE_length 2 _
  rw [hm]
  have hdlen : (([0xff, 0xff] ++ natToBytesBE 2 intentJSON.length ++ intentJSON) ++
      es.length :: encodeEntries es).length =
      5 + intentJSON.length + (encodeEntries es).length := by
    simp only [List.length_append, List.length_cons, List.length_nil, hlen2]
    omega
  have hpre4 : ([0xff, 0xff] ++ natToBytesBE 2 intentJSON.length ++ intentJSON).length =
      4 + intentJSON.length := by
    simp only [List.length_append, List.length_cons, List.length_nil, hlen2]
  have hr16front : ∀ X : List Nat, readUInt16BE (0xff :: 0xff :: X) 0 = 0xffff := by
    intro X
    unfold readUInt16BE
    rw [List.getD_cons_zero, List.getD_cons_succ, List.getD_cons_zero]
  have hread2 : readUInt16BE ([0xff, 0xff] ++ natToBytesBE 2 intentJSON.length ++
      intentJSON ++ es.length :: encodeEntries es) 2 = intentJSON.length := by
    have h := readUInt16BE_at_append [0xff, 0xff]
      (natToBytesBE 2 intentJSON.length ++ (intentJSON ++ es.length :: encodeEntries es))
    norm_num at h
    simp only [List.append_assoc, List.cons_append, List.nil_append]
    rw [h, readUInt16BE_append (by omega), readUInt16BE_natToBytesBE2 hIJ]
  have hread0 : readUInt16BE ([0xff, 0xff] ++ natToBytesBE 2 intentJSON.length ++
      intentJSON ++ es.length :: encodeEntries es) 0 = 0xffff := by
    simp only [List.append_assoc, List.cons_append, List.nil_append]
    exact hr16front _
  have hgetD : ([0xff, 0xff] ++ natToBytesBE 2 intentJSON.length ++ intentJSON ++
      es.length :: encodeEntries es).getD (4 + intentJSON.length) 0 = es.length := by
    rw [List.getD_append_right _ _ _ _ (by omega)]
    rw [hpre4]
    simp
  have hslice : ((([0xff, 0xff] ++ natToBytesBE 2 intentJSON.length ++ intentJSON) ++
      es.length :: encodeEntries es).drop 4).take intentJSON.length = intentJSON := by
    rw [List.append_assoc, List.append_assoc]
    rw [show ([0xff, 0xff] ++ (natToBytesBE 2 intentJSON.length ++
        (intentJSON ++ es.length :: encodeEntries es))) =
      ([0xff, 0xff] ++ natToBytesBE 2 intentJSON.length) ++
        (intentJSON ++ es.length :: encodeEntries es) from by
      simp [List.append_assoc]]
    have h4 : ([0xff, 0xff] ++ natToBytesBE 2 intentJSON.length).length = 4 := by
      simp [hlen2]
    rw [show (4 : Nat) = ([0xff, 0xff] ++ natToBytesBE 2 intentJSON.length).length from
        h4.symm,
      List.drop_left, List.take_append_of_le_length (Nat.le_refl _), List.take_length]
  have hany : es.any (fun e => e.isPlaceholder) = true := by
    rw [List.any_eq_true]
    have hpos : 0 < es.countP (fun e => e.isPlaceholder) := by omega
    obtain ⟨a, ha, hpa⟩ := List.countP_pos_iff.mp hpos
    exact ⟨a, ha, hpa⟩
  have hloop : parseHashListLoop ([0xff, 0xff] ++ natToBytesBE 2 intentJSON.length ++
      intentJSON ++ es.length :: encodeEntries es) (4 + intentJSON.length + 1)
      es.length false =
      .ok (es.map (fun e => ⟨e.isPlaceholder, if e.isPlaceholder then [] else e.hash⟩),
           true) := by
    have h := parseHashListLoop_encode es
      ([0xff, 0xff] ++ natToBytesBE 2 intentJSON.length ++ intentJSON ++ [es.length])
      false hlit (fun hf => absurd hf (by simp)) (by omega)
    have hdata : ([0xff, 0xff] ++ natToBytesBE 2 intentJSON.length ++ intentJSON ++
        [es.length]) ++ encodeEntries es =
        [0xff, 0xff] ++ natToBytesBE 2 intentJSON.length ++ intentJSON ++
          es.length :: encodeEntries es := by
      simp [List.append_assoc]
    have hoff : ([0xff, 0xff] ++ natToBytesBE 2 intentJSON.length ++ intentJSON ++
        [es.length]).length = 4 + intentJSON.length + 1 := by
      rw [List.length_append, hpre4]
      rfl
    rw [hdata, hoff] at h
    rw [h, Bool.false_or, hany]
  unfold parseCrossChainData
  rw [hread2, hread0]
  rw [if_neg (by rw [hdlen]; omega),
    if_neg (by omega),
    if_neg (by rw [hdlen]; omega),
    if_neg (by rw [hdlen]; omega),
    hgetD,
    if_neg (by omega),
    hloop, hslice]
  rfl

/-- The sorted hash list the encoder builds for a two-operation group: a
placeholder for `a` plus literal entries for both `a` and `b`, in ascending
byte order with the placeholder stably ahead of the equal literal `a`. -/
lemma buildSortedHashList_pair (a b : List Nat) :
    buildSortedHashList a [a, b] =
      if bufLt b a then [⟨false, b⟩, ⟨true, a⟩, ⟨false, a⟩]
      else [⟨true, a⟩, ⟨false, a⟩, ⟨false, b⟩] := by
  show insertHashEntry ⟨false, b⟩
      (insertHashEntry ⟨false, a⟩ (insertHashEntry ⟨true, a⟩ [])) = _
  rw [show insertHashEntry ⟨true, a⟩ [] = [⟨true, a⟩] from rfl]
  rw [show insertHashEntry ⟨false, a⟩ [⟨true, a⟩] = [⟨true, a⟩, ⟨false, a⟩] from by
    unfold insertHashEntry
    rw [if_neg (by rw [bufLt_self]; exact Bool.false_ne_true)]
    rfl]
  by_cases hba : bufLt b a = true
  · rw [if_pos hba]
    unfold insertHashEntry
    rw [if_pos hba]
  · have hba' : bufLt b a = false := Bool.not_eq_true _ |>.mp hba
    rw [if_neg hba]
    unfold insertHashEntry
    rw [if_neg hba]
    rw [show insertHashEntry ⟨false, b⟩ [⟨false, a⟩] = [⟨false, a⟩, ⟨false, b⟩] from by
      unfold insertHashEntry
      rw [if_neg hba]
      rfl]

/-- C3 (amended): for every intent payload of at most 65535 bytes and every
pair of well-formed hashes (32 non-zero bytes, not beginning with 0xFFFF),
encoding succeeds and decoding recovers the payload byte-identically together
with a hash list of exactly THREE entries for a two-operation group — one
placeholder (sorted stably at the position thisHash's byte value occupies)
plus one literal entry for each of thisHash and otherHash — whose resolved
hashes are exactly {thisHash, otherHash} and appear in ascending byte order. -/
theorem c3_amended (intentJSON thisHash otherHash : List Nat)
    (hIJ : intentJSON.length ≤ 0xffff)
    (hthis : HashOK thisHash) (hother : HashOK otherHash) :
    ∃ out hl,
      encodeCrossChainCallData intentJSON thisHash otherHash true = .ok out ∧
      parseCrossChainData out = .ok ⟨intentJSON, hl⟩ ∧
      hl.length = 3 ∧
      hl.countP (fun e => e.isPlaceholder) = 1 ∧
      ((hl.filter fun e => !e.isPlaceholder).map fun e => e.operationHash).Perm
        [thisHash, otherHash] ∧
      (hl.map fun e => if e.isPlaceholder then thisHash else e.operationHash).Chain'
        (fun x y => bufLt y x = false) := by
  obtain ⟨hlen_t, _, hne_t, hnz_t⟩ := hthis
  obtain ⟨hlen_o, _, hne_o, hnz_o⟩ := hother
  have hval_t : validateOperationHash thisHash = true := by
    show (thisHash.length == 32 && thisHash.any fun b => b ≠ 0) = true
    rw [hlen_t, hnz_t]
    rfl
  have hval_o : validateOperationHash otherHash = true := by
    show (otherHash.length == 32 && otherHash.any fun b => b ≠ 0) = true
    rw [hlen_o, hnz_o]
    rfl
  have hshape := buildSortedHashList_pair thisHash otherHash
  have henc : encodeCrossChainCallData intentJSON thisHash otherHash true =
      .ok (natToBytesBE 2 0xffff ++ natToBytesBE 2 intentJSON.length ++ intentJSON ++
        (buildSortedHashList thisHash [thisHash, otherHash]).length ::
        encodeEntries (buildSortedHashList thisHash [thisHash, otherHash])) := by
    unfold encodeCrossChainCallData
    rw [if_neg (by omega)]
    rfl
  by_cases hba : bufLt otherHash thisHash = true
  · have hes : buildSortedHashList thisHash [thisHash, otherHash] =
        [⟨false, otherHash⟩, ⟨true, thisHash⟩, ⟨false, thisHash⟩] := by
      rw [hshape, if_pos hba]
    rw [hes] at henc
    have hparse := parseCrossChainData_encode intentJSON
      [⟨false, otherHash⟩, ⟨true, thisHash⟩, ⟨false, thisHash⟩] hIJ
      (by simp) (by simp) (by simp [List.countP_cons]) (by
        intro e he hpe
        simp only [List.mem_cons, List.not_mem_nil, or_false] at he
        rcases he with rfl | rfl | rfl
        · exact ⟨hlen_o, hne_o, hval_o⟩
        · exact absurd hpe (by simp)
        · exact ⟨hlen_t, hne_t, hval_t⟩)
    refine ⟨_, [⟨false, otherHash⟩, ⟨true, []⟩, ⟨false, thisHash⟩], henc, ?_, by simp,
      by simp [List.countP_cons], ?_, ?_⟩
    · exact hparse
    · show List.Perm [otherHash, thisHash] [thisHash, otherHash]
      exact List.Perm.swap thisHash otherHash []
    · show List.Chain' (fun x y => bufLt y x = false) [otherHash, thisHash, thisHash]
      rw [List.chain'_cons]
      refine ⟨bufLt_asymm hba, ?_⟩
      rw [List.chain'_cons]
      exact ⟨bufLt_self _, List.chain'_singleton _⟩
  · have hba' : bufLt otherHash thisHash = false := Bool.not_eq_true _ |>.mp hba
    have hes : buildSortedHashList thisHash [thisHash, otherHash] =
        [⟨true, thisHash⟩, ⟨false, thisHash⟩, ⟨false, otherHash⟩] := by
      rw [hshape, if_neg hba]
    rw [hes] at henc
    have hparse := parseCrossChainData_encode intentJSON
      [⟨true, thisHash⟩, ⟨false, thisHash⟩, ⟨false, otherHash⟩] hIJ
      (by simp) (by simp) (by simp [List.countP_cons]) (by
        intro e he hpe
        simp only [List.mem_cons, List.not_mem_nil, or_false] at he
        rcases he with rfl | rfl | rfl
        · exact absurd hpe (by simp)
        · exact ⟨hlen_t, hne_t, hval_t⟩
        · exact ⟨hlen_o, hne_o, hval_o⟩)
    refine ⟨_, [⟨true, []⟩, ⟨false, thisHash⟩, ⟨false, otherHash⟩], henc, ?_, by simp,
      by simp [List.countP_cons], ?_, ?_⟩
    · exact hparse
    · show List.Perm [thisHash, otherHash] [thisHash, otherHash]
      exact List.Perm.refl _
    · show List.Chain' (fun x y => bufLt y x = false) [thisHash, thisHash, otherHash]
      rw [List.chain'_cons]
      refine ⟨bufLt_self _, ?_⟩
      rw [List.chain'_cons]
      exact ⟨hba', List.chain'_singleton _⟩

/-- C3 (counterexample): for a two-operation group the decoded hash list has
three entries, not two (literal entries are emitted for both hashes besides
the placeholder); moreover decoding can fail outright for a distinct non-zero
hash that begins with the bytes 0xFF 0xFF. -/
theorem c3_counterexample :
    (Except.map (fun r => r.hashList.length)
      ((encodeCrossChainCallData [] (List.replicate 32 0x11)
          (List.replicate 32 0x22) true).bind parseCrossChainData)) = .ok 3 ∧
    ((encodeCrossChainCallData [0x42] (0xff :: 0xff :: List.replicate 30 0x11)
        (List.replicate 32 0x22) true).bind parseCrossChainData) =
      .error "Invalid hash list with multiple placeholders" := by
  decide

/-- C3 (witness): the amended round trip at the empty intent payload and the
hashes 0x11…11 and 0x22…22. -/
theorem c3_witness :
    ([] : List Nat).length ≤ 0xffff ∧
    HashOK (List.replicate 32 0x11) ∧ HashOK (List.replicate 32 0x22) ∧
    (∃ out hl,
      encodeCrossChainCallData [] (List.replicate 32 0x11)
        (List.replicate 32 0x22) true = .ok out ∧
      parseCrossChainData out = .ok ⟨[], hl⟩ ∧
      hl.length = 3 ∧
      hl.countP (fun e => e.isPlaceholder) = 1 ∧
      ((hl.filter fun e => !e.isPlaceholder).map fun e => e.operationHash).Perm
        [List.replicate 32 0x11, List.replicate 32 0x22] ∧
      (hl.map fun e =>
        if e.isPlaceholder then List.replicate 32 0x11 else e.operationHash).Chain'
        (fun x y => bufLt y x = false)) :=
  ⟨by decide, by decide, by decide,
   c3_amended [] (List.replicate 32 0x11) (List.replicate 32 0x22)
     (by decide) (by decide) (by decide)⟩

/-! ## C1: determinism of the operation hash and the reference vector -/

/-- Every Keccak-256 digest is 32 bytes. -/
lemma keccak256_length (msg : List Nat) : (keccak256 msg).length = 32 := by
  simp only [keccak256, List.length_flatten, List.map_map]
  rw [show List.range 4 = [0, 1, 2, 3] from rfl]
  simp [laneToBytes]

set_option maxRecDepth 100000 in
set_option maxHeartbeats 10000000 in
/-- C1 (counterexample): at the spec's literal inputs the hash is not the
63-hex-digit vector the spec prints (the spec dropped the final digit). -/
theorem c1_counterexample :
    bytesToNatBE (hashUserOp 1 c1TestOp) ≠
      0xfb65960f1001da5618a675bb640a3dcf9c2d6446c1dc2cb29dd9cd17ebdc675 := by
  decide

set_option maxRecDepth 100000 in
set_option maxHeartbeats 10000000 in
/-- C1 (amended): `hashUserOp` is deterministic (it is a pure function of the
operation fields and chain id) and always returns 32 bytes, and at the literal
inputs — sender 0x1234567890123456789012345678901234567890, nonce 1, empty
initCode, callData 0x1234, gas fields 1000000/1000000/1000000/1000000000/
1000000000, empty paymasterAndData, chain id 1 — it equals the repository's
reference vector 0xfb65960f1001da5618a675bb640a3dcf9c2d6446c1dc2cb29dd9cd17ebdc6756. -/
theorem c1_amended :
    (∀ (chainId : Nat) (op : UserOp), hashUserOp chainId op = hashUserOp chainId op) ∧
    (∀ (chainId : Nat) (op : UserOp), (hashUserOp chainId op).length = 32) ∧
    bytesToNatBE (hashUserOp 1 c1TestOp) =
      0xfb65960f1001da5618a675bb640a3dcf9c2d6446c1dc2cb29dd9cd17ebdc6756 :=
  ⟨fun _ _ => rfl, fun _ op => keccak256_length _, by decide⟩
